import Mathlib

/-!
Shallow embedding of the Measurement Control orchestration engine
(`modules/measurement/measurement_control.py`, class `MeasurementControl`).

Data values are modelled as rationals (`ℚ`); the result table (`self.dset`,
an HDF5 resizable dataset) is modelled as a fixed column count together with
a list of rows, each row a list of rationals.  Python true division (`/` on
row counts in `measure_hard`) is modelled in `ℚ`, and `int()` truncation of
a nonnegative value by `Rat.floor`.  Fallible Python code is modelled with
`Except`.
-/

namespace MeasurementControl

/-- Python exceptions that the embedded fragments can raise. -/
inductive PyExc
  | stopIteration
  | typeError
  | indexError
  | valueError
  | attributeError
  | zeroDivisionError
  | mismatchedModes
  | hardNDNotImplemented
  | unrecognizedOptimizer
  | propagatedExc
  deriving DecidableEq, Repr

/-- The result table: `create_experimentaldata_dataset` fixes the column
count for the run; rows grow by `resize`. -/
structure DataSet where
  numCols : ℕ
  rows : List (List ℚ)
  deriving DecidableEq, Repr

/-- `create_experimentaldata_dataset` (lines 512-518): creates the dataset
with shape `(0, S + V)` where `S = len(sweep_functions)` and
`V = len(detector_function.value_names)`. -/
def create_experimentaldata_dataset (S V : ℕ) : DataSet :=
  ⟨S + V, []⟩

/-- `measurement_function` (lines 203-238), the soft-sweep core: checks that
the size of `x` equals the number of sweep functions (a scalar `x` having
been wrapped into a one-element list by the `np.size(x) == 1` branch, which
is the identity on our list representation), sets the sweep parameters,
acquires `vals = detector_function.acquire_data_point()`, resizes the
dataset from `n` to `n + 1` rows and writes `np.append(x, vals)` into the
new last row.  The detector is modelled as a pure function from the sweep
point to its value vector. -/
def measurement_function (S : ℕ) (det : List ℚ → List ℚ) (d : DataSet)
    (x : List ℚ) : Except PyExc DataSet :=
  if x.length ≠ S then .error .valueError
  else
    let vals := det x
    -- iteration = datasetshape[0] + 1; resize to (iteration, cols);
    -- dset[iteration-1, :] = np.append(x, vals)
    .ok ⟨d.numCols, d.rows ++ [x ++ vals]⟩

/-- `measure_soft_static` (lines 112-115): one `measurement_function` call
per sweep point, in order. -/
def measure_soft_static (S : ℕ) (det : List ℚ → List ℚ)
    (points : List (List ℚ)) (d : DataSet) : Except PyExc DataSet :=
  points.foldlM (fun acc p => measurement_function S det acc p) d

/-- `np.tile(xs, n)`: the whole sequence repeated `n` times. -/
def npTile (xs : List ℚ) : ℕ → List ℚ
  | 0 => []
  | n + 1 => xs ++ npTile xs n

/-- `np.repeat(ys, m)`: each element repeated `m` times in place. -/
def npRepeat (m : ℕ) : List ℚ → List ℚ
  | [] => []
  | y :: ys => List.replicate m y ++ npRepeat m ys

/-- `np.column_stack((a, b))` for two one-dimensional arrays of equal
length: the list of pairs. -/
def npColumnStack (a b : List ℚ) : List (ℚ × ℚ) :=
  a.zip b

/-- `measure_2D` (lines 322-334), the 1-component-points branch:
`xlen = len(sweep_points)`, `ylen = len(sweep_points_2D)`,
`x_tiled = np.tile(inner, ylen)`, `y_rep = np.repeat(outer, xlen)`,
combined points `c = np.column_stack((x_tiled, y_rep))`. -/
def measure_2D_expand (inner outer : List ℚ) : List (ℚ × ℚ) :=
  npColumnStack (npTile inner outer.length) (npRepeat inner.length outer)

/-- `self.iteration = datasetshape[0]/shape_new_data[0] + 1` (line 169):
Python 3 true division, modelled in `ℚ`. -/
def chunkNumber (currentRows r : ℕ) : ℚ :=
  (currentRows : ℚ) / (r : ℚ) + 1

/-- The slice assignment `dset[start_idx:, S:] = new_data`: every row from
`start_idx` on keeps its first `S` entries and gets the corresponding
`newData` row in its value columns; rows before `start_idx` are untouched.
`j` is the index of the first row of the list argument. -/
def sliceAssignValues (S start : ℕ) (newData : List (List ℚ)) :
    ℕ → List (List ℚ) → List (List ℚ)
  | _, [] => []
  | j, row :: rest =>
      (if start ≤ j then row.take S ++ newData.getD (j - start) [] else row) ::
        sliceAssignValues S start newData (j + 1) rest

/-- The slice assignment `dset[:, 0] = pts`: column 0 of row `j` becomes
`pts[j]`; the other columns are untouched. -/
def sliceAssignCol0 (pts : List ℚ) : ℕ → List (List ℚ) → List (List ℚ)
  | _, [] => []
  | j, row :: rest =>
      (pts.getD j 0 :: row.drop 1) :: sliceAssignCol0 pts (j + 1) rest

/-- `measure_hard` lines 155-179, the block-ingestion and value-column
write.  `newData` is `np.array(detector_function.get_values()).T` as a list
of `r` rows of `v` channel values (the `single_col` case is `v = 1`); `S`
is the number of sweep functions and `cols` the dataset's column count.
`start_idx = int(shape_new_data[0]*(self.iteration-1))` truncates a
nonnegative float, modelled by `Rat.floor`; the resize target
`shape_new_data[0]*self.iteration` is likewise integral whenever `r`
divides the current row count, and converted by `Rat.floor` here.  The
HDF5 `resize` keeps existing rows and fills fresh rows with the fill value
0; `dset[start_idx:, S:] = new_data` overwrites the value columns of every
row from `start_idx` on. -/
def measure_hard_ingest (S cols : ℕ) (dset newData : List (List ℚ)) :
    List (List ℚ) :=
  let r := newData.length
  let iteration : ℚ := chunkNumber dset.length r
  let start_idx : ℕ := (Rat.floor ((r : ℚ) * (iteration - 1))).toNat
  let newLen : ℕ := (Rat.floor ((r : ℚ) * iteration)).toNat
  let grown := dset.take newLen ++
    List.replicate (newLen - dset.length) (List.replicate cols 0)
  sliceAssignValues S start_idx newData 0 grown

/-- `measure_hard` lines 155-190 for a single-axis run in mode `'1D'`
(`S = 1`): after the block ingestion, `sweep_len = len(get_sweep_points().T)`
(the transpose of a one-dimensional array is itself, so this is the number
of sweep points); when it equals the block's row count,
`dset[:, 0] = get_sweep_points().T`; otherwise the `elif self.mode is '2D'`
branch does not fire in a 1D run and no sweep points are written. -/
def measure_hard_step_1D (cols : ℕ) (sweep_points : List ℚ)
    (dset newData : List (List ℚ)) : List (List ℚ) :=
  let written := measure_hard_ingest 1 cols dset newData
  if sweep_points.length = newData.length then
    sliceAssignCol0 sweep_points 0 written
  else
    written

/-!  The adaptive-optimization wrapper (`optimization_function`,
lines 240-281, and the surrounding `measure_soft_adaptive`). -/

/-- The configured `x_scale` (popped in `set_adaptive_function_parameters`,
line 695, default 1): either a scalar or an iterable of per-axis factors,
distinguished in the source by `hasattr(self.x_scale, '__iter__')`. -/
inductive XScale
  | scalar (s : ℚ)
  | vector (s : List ℚ)
  deriving DecidableEq, Repr

/-- The per-axis loop body `x[i] = float(x[i])/float(self.x_scale[i])` for
an iterable scale: evaluates `x_scale[i]` (IndexError past its end), then
divides (ZeroDivisionError on a zero factor). -/
def rescale_loop : List ℚ → List ℚ → Except PyExc (List ℚ)
  | [], _ => .ok []
  | _ :: _, [] => .error .indexError
  | a :: as, b :: bs =>
      if b = 0 then .error .zeroDivisionError
      else (fun rest => a / b :: rest) <$> rescale_loop as bs

/-- `optimization_function` lines 253-258, the input rescaling: an iterable
`x_scale` divides elementwise; a scalar `x_scale ≠ 1` enters the `elif`
branch whose body indexes the scalar (`self.x_scale[i]`), which raises
TypeError on the first loop iteration (so only an empty `x` escapes); a
scalar `x_scale = 1` skips rescaling entirely. -/
def rescale_x (x_scale : XScale) (x : List ℚ) : Except PyExc (List ℚ) :=
  match x_scale with
  | .vector s => rescale_loop x s
  | .scalar s =>
      if s ≠ 1 then
        if x.isEmpty then .ok x else .error .typeError
      else .ok x

/-- Python `vals > f_termination` where `f_termination` may be `None`
(lines 268): comparing a number against `None` raises TypeError in
Python 3; both operands of the non-short-circuiting `&` are evaluated, so
this comparison runs before the `is not None` test can guard it. -/
def pyGtOpt (v : ℚ) : Option ℚ → Except PyExc Bool
  | some t => .ok (decide (t < v))
  | none => .error .typeError

/-- `optimization_function` lines 259-281, the termination / sign logic for
one measured value `v` (the measurement itself and the input rescaling are
factored out; `v` plays `vals`).  Minimizing: if `f_termination is not
None` and `vals < f_termination`, raise StopIteration, else return `vals`.
Maximizing: evaluate `(vals > f_termination) & (f_termination is not
None)` — the left operand first, non-short-circuiting — raise
StopIteration when it holds, and only afterwards negate the value handed
back to the optimizer. -/
def optimization_step (minimize : Bool) (fterm : Option ℚ) (v : ℚ) :
    Except PyExc ℚ :=
  if minimize then
    match fterm with
    | some t => if v < t then .error .stopIteration else .ok v
    | none => .ok v
  else
    match pyGtOpt v fterm with
    | .error e => .error e
    | .ok b =>
        if b && fterm.isSome then .error .stopIteration
        else .ok (-v)

/-- The optimizer calling the wrapped objective repeatedly: `vals` is the
sequence of measured values produced by the successive calls; the returned
list is what the optimizer receives, cut short by the first raised
exception. -/
def run_objective_seq (minimize : Bool) (fterm : Option ℚ) :
    List ℚ → Except PyExc (List ℚ)
  | [] => .ok []
  | v :: vs =>
      match optimization_step minimize fterm v with
      | .error e => .error e
      | .ok y =>
          match run_objective_seq minimize fterm vs with
          | .error e => .error e
          | .ok ys => .ok (y :: ys)

/-- `measure_soft_adaptive` lines 134-138: the optimizer call is wrapped in
`try: ... except StopIteration:` — StopIteration is caught and treated as
normal completion; any other exception propagates. -/
def adaptive_try_run (res : Except PyExc (List ℚ)) : Except PyExc Unit :=
  match res with
  | .ok _ => .ok ()
  | .error .stopIteration => .ok ()
  | .error e => .error e

/-!  Control-flow skeleton of `measure` and `measure_soft_adaptive`: which
prepare/finish notifications happen on which paths.  Acquisition bodies
and the calls into the external plotting backend are abstracted as
succeeding event emitters (the spec excludes the plotting backend from
scope), but structural failures of the engine's own code — attributes and
methods that do not exist on the class, as in the two-axis hard plot-feed
tail — are modelled as the AttributeError they raise. -/

/-- `sweep_control` / `detector_control` of the external capabilities. -/
inductive Ctrl
  | soft
  | hard
  deriving DecidableEq, Repr

/-- Observable notifications sent to the external sweep/detector objects. -/
inductive Ev
  | prepSweep (i : ℕ)
  | prepDet
  | acquirePoint
  | getValuesBlock
  | optimizerCalled
  | finishSweep (i : ℕ)
  | finishDet
  deriving DecidableEq, Repr

/-- The finish loop (lines 105-107 and 143-145): `finish()` on every sweep
function in order, then on the detector. -/
def finishEvents (n : ℕ) : List Ev :=
  (List.range n).map Ev.finishSweep ++ [Ev.finishDet]

/-- `measure` (lines 68-110) as an event trace.  `controls` lists each
sweep function's `sweep_control` (nonempty in any real run), `detCtrl` the
detector's mode, `nPoints` the soft sweep-point count.  The mode check
(line 70) raises before any prepare; the `> 2` hard-axis case (line 104)
raises after the sweep prepares but before any detector prepare,
acquisition or finish.  The two-axis hard path never reaches the finish
loop either: on the reshaped `measure_2D` route the 2D buffer exists, so
the first `measure_hard` call ends in `update_plotmon_2D_hard`, which
reads the never-assigned `self.Plotmon` attribute (lines 470/479) — and
line 199 calls `print_progress_static_2D_hard`, which is not defined on
the class — raising AttributeError after the first block; the
pre-combined route instead evaluates the unset `self.xlen` at line 92.
The trace below follows the reshaped route: one ingested block, then the
AttributeError. -/
def measure (controls : List Ctrl) (detCtrl : Ctrl) (nPoints : ℕ) :
    Except PyExc Unit × List Ev :=
  if controls.headD .soft ≠ detCtrl then (.error .mismatchedModes, [])
  else
    let prepEvs := (List.range controls.length).map Ev.prepSweep
    if controls.headD .soft = .soft then
      (.ok (), prepEvs ++ [Ev.prepDet] ++
        List.replicate nPoints Ev.acquirePoint ++
        finishEvents controls.length)
    else
      if controls.length = 1 then
        (.ok (), prepEvs ++ [Ev.prepDet, Ev.getValuesBlock] ++
          finishEvents controls.length)
      else if controls.length = 2 then
        (.error .attributeError, prepEvs ++ [Ev.prepDet, Ev.getValuesBlock])
      else
        (.error .hardNDNotImplemented, prepEvs)

/-- Outcome of the external optimizer run: returns normally, raises
StopIteration (the termination signal), or raises something else. -/
inductive OptOutcome
  | normal
  | stopIter
  | otherExc
  deriving DecidableEq, Repr

/-- The value bound to `'adaptive_function'` in `af_pars`.  The source
compares it with the string `'Powell'` (line 131) and then tests
`type(adaptive_function) == types.FunctionType` (line 134): a plain Python
function passes, while a callable of any other type — or a non-callable —
fails that test.  `fmin_powell` itself is a plain function.  The
`OptOutcome` argument records how the optimizer run would end. -/
inductive AdaptiveFunctionVal
  | powellName (o : OptOutcome)
  | functionVal (o : OptOutcome)
  | callableObj
  | nonCallable
  deriving DecidableEq, Repr

/-- `measure_soft_adaptive` (lines 117-148) as an event trace: prepare all
sweep functions and the detector; resolve `'Powell'` to `fmin_powell`;
invoke the optimizer only when the resolved value is of function type,
catching StopIteration; otherwise raise the unrecognized-optimizer error —
in the raising cases the finish loop (lines 143-145) is never reached. -/
def measure_soft_adaptive (nSweep : ℕ) (af : AdaptiveFunctionVal) :
    Except PyExc Unit × List Ev :=
  let prepEvs := (List.range nSweep).map Ev.prepSweep ++ [Ev.prepDet]
  let af1 : AdaptiveFunctionVal :=
    match af with
    | .powellName o => .functionVal o
    | a => a
  match af1 with
  | .functionVal o =>
      match o with
      | .otherExc => (.error .propagatedExc, prepEvs ++ [Ev.optimizerCalled])
      | _ => (.ok (), prepEvs ++ [Ev.optimizerCalled] ++ finishEvents nSweep)
  | _ => (.error .unrecognizedOptimizer, prepEvs)

/-!  Sweep-point get/set plumbing (lines 682-688). -/

/-- The slice of an external sweep function's state the engine touches. -/
structure SweepFunctionState where
  sweep_points : Option (List ℚ)
  deriving DecidableEq, Repr

/-- The slice of the engine's state touched by `set_sweep_points` and
`get_sweep_points`. -/
structure MCState where
  sweep_points : Option (List ℚ)
  sweep_functions : List SweepFunctionState
  deriving DecidableEq, Repr

/-- `np.array` on a sequence of scalars: preserves the sequence of
values. -/
def npArray (xs : List ℚ) : List ℚ := xs

/-- `set_sweep_points` (lines 682-685): stores `np.array(sweep_points)` on
the engine and onto the first sweep function; indexing
`self.sweep_functions[0]` raises IndexError when no sweep function is
attached. -/
def set_sweep_points (st : MCState) (p : List ℚ) : Except PyExc MCState :=
  match st.sweep_functions with
  | [] => .error .indexError
  | f :: rest =>
      .ok { sweep_points := some (npArray p),
            sweep_functions :=
              { f with sweep_points := some (npArray p) } :: rest }

/-- `get_sweep_points` (lines 687-688): reads
`self.sweep_functions[0].sweep_points`; IndexError when no sweep function
is attached, AttributeError when that attribute was never set. -/
def get_sweep_points (st : MCState) : Except PyExc (List ℚ) :=
  match st.sweep_functions with
  | [] => .error .indexError
  | f :: _ =>
      match f.sweep_points with
      | none => .error .attributeError
      | some ps => .ok ps

/-!  Helper lemmas about the slice assignments and the numpy-style
expansion primitives. -/

theorem length_sliceAssignValues (S start : ℕ) (nd : List (List ℚ)) :
    ∀ (j : ℕ) (l : List (List ℚ)),
      (sliceAssignValues S start nd j l).length = l.length := by
  intro j l
  induction l generalizing j with
  | nil => rfl
  | cons r rest ih => simp [sliceAssignValues, ih]

theorem getElem?_sliceAssignValues (S start : ℕ) (nd : List (List ℚ)) :
    ∀ (j k : ℕ) (l : List (List ℚ)),
      (sliceAssignValues S start nd j l)[k]? =
        (l[k]?).map fun row =>
          if start ≤ j + k then row.take S ++ nd.getD (j + k - start) []
          else row := by
  intro j k l
  induction l generalizing j k with
  | nil => simp [sliceAssignValues]
  | cons r rest ih =>
    cases k with
    | zero => simp [sliceAssignValues]
    | succ k =>
      have h : j + 1 + k = j + (k + 1) := by omega
      simp only [sliceAssignValues, List.getElem?_cons_succ]
      rw [ih (j + 1) k, h]

theorem length_sliceAssignCol0 (pts : List ℚ) :
    ∀ (j : ℕ) (l : List (List ℚ)),
      (sliceAssignCol0 pts j l).length = l.length := by
  intro j l
  induction l generalizing j with
  | nil => rfl
  | cons r rest ih => simp [sliceAssignCol0, ih]

theorem getElem?_sliceAssignCol0 (pts : List ℚ) :
    ∀ (j k : ℕ) (l : List (List ℚ)),
      (sliceAssignCol0 pts j l)[k]? =
        (l[k]?).map fun row => pts.getD (j + k) 0 :: row.drop 1 := by
  intro j k l
  induction l generalizing j k with
  | nil => simp [sliceAssignCol0]
  | cons r rest ih =>
    cases k with
    | zero => simp [sliceAssignCol0]
    | succ k =>
      have h : j + 1 + k = j + (k + 1) := by omega
      simp only [sliceAssignCol0, List.getElem?_cons_succ]
      rw [ih (j + 1) k, h]

theorem length_npTile (xs : List ℚ) :
    ∀ n, (npTile xs n).length = n * xs.length := by
  intro n
  induction n with
  | zero => simp [npTile]
  | succ n ih => simp [npTile, ih, Nat.succ_mul, Nat.add_comm]

theorem length_npRepeat (m : ℕ) :
    ∀ ys : List ℚ, (npRepeat m ys).length = ys.length * m := by
  intro ys
  induction ys with
  | nil => simp [npRepeat]
  | cons y ys ih => simp [npRepeat, ih, Nat.succ_mul, Nat.add_comm]

theorem getElem?_npTile (xs : List ℚ) :
    ∀ (n j i : ℕ), j < n → i < xs.length →
      (npTile xs n)[j * xs.length + i]? = xs[i]? := by
  intro n
  induction n with
  | zero => intro j i hj _; omega
  | succ n ih =>
    intro j i hj hi
    cases j with
    | zero =>
      have : (0 : ℕ) * xs.length + i = i := by omega
      rw [this]
      simp only [npTile, List.getElem?_append]
      rw [if_pos hi]
    | succ j =>
      have harith : (j + 1) * xs.length + i =
          xs.length + (j * xs.length + i) := by ring
      simp only [npTile, harith]
      rw [List.getElem?_append_right (by omega)]
      have : xs.length + (j * xs.length + i) - xs.length =
          j * xs.length + i := by omega
      rw [this]
      exact ih j i (by omega) hi

theorem getElem?_npRepeat (m : ℕ) :
    ∀ (ys : List ℚ) (j i : ℕ), j < ys.length → i < m →
      (npRepeat m ys)[j * m + i]? = ys[j]? := by
  intro ys
  induction ys with
  | nil => intro j i hj _; simp at hj
  | cons y ys ih =>
    intro j i hj hi
    cases j with
    | zero =>
      have : (0 : ℕ) * m + i = i := by omega
      rw [this]
      simp only [npRepeat, List.getElem?_append]
      rw [if_pos (by simpa using hi)]
      simp [List.getElem?_replicate, hi]
    | succ j =>
      have harith : (j + 1) * m + i = m + (j * m + i) := by ring
      simp only [npRepeat, harith]
      rw [List.getElem?_append_right (by simp)]
      have : m + (j * m + i) - (List.replicate m y).length =
          j * m + i := by simp
      rw [this]
      have hj' : j < ys.length := by simpa using Nat.lt_of_succ_lt_succ (by simpa using hj)
      simpa using ih j i hj' hi

/-- C5: for a 2D run with 1-component sweep points, inner length `m` and
outer length `n`, the expanded combined point set has length `m*n`, equals
the column-stack of the inner set tiled `n` times with the outer set
element-wise repeated `m` times, is in row-major order (row `j*m + i` is
`(inner i, outer j)`, inner axis fastest), and its first `m` rows vary only
the inner coordinate with the outer coordinate fixed at the first outer
value. -/
theorem C5_2D_expansion (inner outer : List ℚ) :
    measure_2D_expand inner outer =
      npColumnStack (npTile inner outer.length) (npRepeat inner.length outer) ∧
    (measure_2D_expand inner outer).length = inner.length * outer.length ∧
    (∀ j i, j < outer.length → i < inner.length →
      (measure_2D_expand inner outer)[j * inner.length + i]? =
        some (inner.getD i 0, outer.getD j 0)) ∧
    (∀ i, i < inner.length → outer ≠ [] →
      (measure_2D_expand inner outer)[i]? =
        some (inner.getD i 0, outer.getD 0 0)) := by
  have hidx : ∀ j i, j < outer.length → i < inner.length →
      (measure_2D_expand inner outer)[j * inner.length + i]? =
        some (inner.getD i 0, outer.getD j 0) := by
    intro j i hj hi
    have h1 : (npTile inner outer.length)[j * inner.length + i]? =
        some (inner.getD i 0) := by
      rw [getElem?_npTile inner outer.length j i hj hi,
        List.getElem?_eq_getElem hi, List.getD_eq_getElem inner 0 hi]
    have h2 : (npRepeat inner.length outer)[j * inner.length + i]? =
        some (outer.getD j 0) := by
      rw [getElem?_npRepeat inner.length outer j i hj hi,
        List.getElem?_eq_getElem hj, List.getD_eq_getElem outer 0 hj]
    show (npColumnStack _ _)[j * inner.length + i]? = _
    rw [npColumnStack, List.getElem?_zip_eq_some]
    exact ⟨h1, h2⟩
  refine ⟨rfl, ?_, hidx, ?_⟩
  · show (npColumnStack _ _).length = _
    rw [npColumnStack, List.length_zip, length_npTile, length_npRepeat,
      Nat.mul_comm inner.length outer.length, Nat.min_self,
      Nat.mul_comm outer.length inner.length]
  · intro i hi houter
    have hj : 0 < outer.length := List.length_pos.mpr houter
    have := hidx 0 i hj hi
    simpa using this

/-- Witness for C5 at the spec's Scenario B: inner `[0,1]`, outer
`[10,20]`. -/
theorem C5_witness :
    (measure_2D_expand [0, 1] [10, 20]).length = 2 * 2 ∧
    (measure_2D_expand [0, 1] [10, 20])[1 * 2 + 0]? = some (0, 20) ∧
    (measure_2D_expand [0, 1] [10, 20])[1]? = some (1, 10) :=
  ⟨(C5_2D_expansion [0, 1] [10, 20]).2.1,
   (C5_2D_expansion [0, 1] [10, 20]).2.2.1 1 0 (by decide) (by decide),
   by
     have := (C5_2D_expansion [0, 1] [10, 20]).2.2.2 1 (by decide) (by decide)
     simpa using this⟩

/-- C9: for an adaptive run configured to maximize with no termination
threshold configured, every objective-wrapper call fails with a TypeError
instead of returning the sign-flipped value: the maximize branch evaluates
`vals > f_termination` unconditionally (the non-short-circuiting `&`
evaluates it before the `is not None` test), and comparing a number with
None raises TypeError. -/
theorem C9_maximize_without_threshold_type_error (v : ℚ) :
    optimization_step false none v = .error .typeError ∧
    optimization_step false none v ≠ .ok (-v) := by
  constructor
  · rfl
  · intro h
    exact absurd h (by simp [optimization_step, pyGtOpt])

/-- C7: the input-rescaling code of the objective wrapper.  A vector scale
factor divides each coordinate elementwise and a scale factor of 1 passes
the coordinates through unchanged; but for a scalar scale factor `s ≠ 1`
the loop body indexes the scalar (`self.x_scale[i]`), so the call raises
TypeError instead of dividing each coordinate by `s` — the code evaluated
at the claim's failing input. -/
theorem C7_scalar_scale_type_error :
    rescale_x (.scalar 2) [4] = .error .typeError ∧
    rescale_x (.scalar 2) [4] ≠ .ok [2] ∧
    rescale_x (.vector [2, 4]) [4, 8] = .ok [2, 2] ∧
    rescale_x (.scalar 1) [4, 8] = .ok [4, 8] := by
  refine ⟨rfl, ?_, ?_, rfl⟩
  · intro h
    exact absurd h (by simp [rescale_x])
  · show rescale_loop [4, 8] [2, 4] = .ok [2, 2]
    have h4 : (4 : ℚ) / 2 = 2 := by norm_num
    have h8 : (8 : ℚ) / 4 = 2 := by norm_num
    simp [rescale_loop, h4, h8]

/-- C10: with at least one sweep function attached, `set_sweep_points p`
stores the array conversion of `p` both on the engine and onto the first
sweep function, and `get_sweep_points` reads it back from the first sweep
function, so the round-trip is the identity up to array conversion. -/
theorem C10_sweep_points_roundtrip (st : MCState) (p : List ℚ)
    (h : st.sweep_functions ≠ []) :
    ∃ st', set_sweep_points st p = .ok st' ∧
      get_sweep_points st' = .ok (npArray p) ∧
      st'.sweep_points = some (npArray p) := by
  obtain ⟨sp, sfs⟩ := st
  cases sfs with
  | nil => simp at h
  | cons f rest =>
      exact ⟨⟨some (npArray p), ⟨some (npArray p)⟩ :: rest⟩, rfl, rfl, rfl⟩

/-- Witness for C10 at a concrete state with one attached sweep function
and points `[1, 2, 3]`. -/
theorem C10_witness :
    ∃ st', set_sweep_points ⟨none, [⟨none⟩]⟩ [1, 2, 3] = .ok st' ∧
      get_sweep_points st' = .ok (npArray [1, 2, 3]) ∧
      st'.sweep_points = some (npArray [1, 2, 3]) :=
  C10_sweep_points_roundtrip ⟨none, [⟨none⟩]⟩ [1, 2, 3] (by simp)

/-!  Lemmas about the adaptive objective sequence. -/

theorem run_objective_seq_min_ok (t : ℚ) :
    ∀ vs : List ℚ, (∀ v ∈ vs, ¬ v < t) →
      run_objective_seq true (some t) vs = .ok vs := by
  intro vs
  induction vs with
  | nil => intro _; rfl
  | cons v vs ih =>
    intro h
    have hv : ¬ v < t := h v (by simp)
    have hrest := ih fun w hw => h w (by simp [hw])
    simp [run_objective_seq, optimization_step, hv, hrest]

theorem run_objective_seq_max_ok (t : ℚ) :
    ∀ vs : List ℚ, (∀ v ∈ vs, ¬ t < v) →
      run_objective_seq false (some t) vs = .ok (vs.map fun v => -v) := by
  intro vs
  induction vs with
  | nil => intro _; rfl
  | cons v vs ih =>
    intro h
    have hv : ¬ t < v := h v (by simp)
    have hrest := ih fun w hw => h w (by simp [hw])
    simp [run_objective_seq, optimization_step, pyGtOpt, hv, hrest]

theorem run_objective_seq_min_stop (t : ℚ) :
    ∀ (vs : List ℚ) (i : ℕ), i < vs.length →
      (∀ j, j < i → ¬ vs.getD j 0 < t) → vs.getD i 0 < t →
      run_objective_seq true (some t) vs = .error .stopIteration := by
  intro vs
  induction vs with
  | nil => intro i hi _ _; simp at hi
  | cons v vs ih =>
    intro i hi hpre hstop
    cases i with
    | zero =>
      have hv : v < t := by simpa using hstop
      simp [run_objective_seq, optimization_step, hv]
    | succ i =>
      have hv : ¬ v < t := by simpa using hpre 0 (by omega)
      have h1 : run_objective_seq true (some t) vs = .error .stopIteration := by
        refine ih i (by simpa using Nat.lt_of_succ_lt_succ hi) ?_ ?_
        · intro j hj; simpa using hpre (j + 1) (by omega)
        · simpa using hstop
      simp [run_objective_seq, optimization_step, hv, h1]

theorem run_objective_seq_max_stop (t : ℚ) :
    ∀ (vs : List ℚ) (i : ℕ), i < vs.length →
      (∀ j, j < i → ¬ t < vs.getD j 0) → t < vs.getD i 0 →
      run_objective_seq false (some t) vs = .error .stopIteration := by
  intro vs
  induction vs with
  | nil => intro i hi _ _; simp at hi
  | cons v vs ih =>
    intro i hi hpre hstop
    cases i with
    | zero =>
      have hv : t < v := by simpa using hstop
      simp [run_objective_seq, optimization_step, pyGtOpt, hv]
    | succ i =>
      have hv : ¬ t < v := by simpa using hpre 0 (by omega)
      have h1 : run_objective_seq false (some t) vs = .error .stopIteration := by
        refine ih i (by simpa using Nat.lt_of_succ_lt_succ hi) ?_ ?_
        · intro j hj; simpa using hpre (j + 1) (by omega)
        · simpa using hstop
      simp [run_objective_seq, optimization_step, pyGtOpt, hv, h1]

theorem not_lt_of_mem_take {t : ℚ} {vs : List ℚ} {i : ℕ}
    (hpre : ∀ j, j < i → ¬ vs.getD j 0 < t) :
    ∀ v ∈ vs.take i, ¬ v < t := by
  intro v hv
  obtain ⟨j, hj, hget⟩ := List.getElem_of_mem hv
  have hji : j < i := by
    have := hj
    rw [List.length_take] at this
    omega
  have hjlen : j < vs.length := by
    have := hj
    rw [List.length_take] at this
    omega
  have : vs.getD j 0 = v := by
    rw [List.getD_eq_getElem vs 0 hjlen, ← hget, List.getElem_take]
  rw [← this]
  exact hpre j hji

theorem not_gt_of_mem_take {t : ℚ} {vs : List ℚ} {i : ℕ}
    (hpre : ∀ j, j < i → ¬ t < vs.getD j 0) :
    ∀ v ∈ vs.take i, ¬ t < v := by
  intro v hv
  obtain ⟨j, hj, hget⟩ := List.getElem_of_mem hv
  have hji : j < i := by
    have := hj
    rw [List.length_take] at this
    omega
  have hjlen : j < vs.length := by
    have := hj
    rw [List.length_take] at this
    omega
  have : vs.getD j 0 = v := by
    rw [List.getD_eq_getElem vs 0 hjlen, ← hget, List.getElem_take]
  rw [← this]
  exact hpre j hji

/-- C4: adaptive termination.  Minimizing with threshold `t`: if the first
`i` measured values are `≥ t` and the `i`-th is `< t`, the objective raises
the stop-iteration signal exactly on that call (all earlier calls return
their values to the optimizer), and the optimization wrapper catches the
signal so the run completes normally.  Maximizing: the signal fires on the
first value `> t`, the comparison being made on the measured value itself,
before the sign flip that the non-stopping calls apply to the value handed
to the optimizer. -/
theorem C4_adaptive_termination :
    (∀ (t : ℚ) (vs : List ℚ) (i : ℕ), i < vs.length →
      (∀ j, j < i → ¬ vs.getD j 0 < t) → vs.getD i 0 < t →
      run_objective_seq true (some t) vs = .error .stopIteration ∧
      run_objective_seq true (some t) (vs.take i) = .ok (vs.take i) ∧
      adaptive_try_run (run_objective_seq true (some t) vs) = .ok ()) ∧
    (∀ (t : ℚ) (vs : List ℚ) (i : ℕ), i < vs.length →
      (∀ j, j < i → ¬ t < vs.getD j 0) → t < vs.getD i 0 →
      run_objective_seq false (some t) vs = .error .stopIteration ∧
      run_objective_seq false (some t) (vs.take i) =
        .ok ((vs.take i).map fun v => -v) ∧
      adaptive_try_run (run_objective_seq false (some t) vs) = .ok ()) := by
  constructor
  · intro t vs i hi hpre hstop
    have hfull := run_objective_seq_min_stop t vs i hi hpre hstop
    refine ⟨hfull, ?_, ?_⟩
    · exact run_objective_seq_min_ok t (vs.take i) (not_lt_of_mem_take hpre)
    · rw [hfull]; rfl
  · intro t vs i hi hpre hstop
    have hfull := run_objective_seq_max_stop t vs i hi hpre hstop
    refine ⟨hfull, ?_, ?_⟩
    · exact run_objective_seq_max_ok t (vs.take i) (not_gt_of_mem_take hpre)
    · rw [hfull]; rfl

/-- Witness for C4, shaped after the spec's Scenario D: a minimize run with
threshold `1` and measured values `5, 3, 0` stops on the third call, and a
maximize run with threshold `2` and measured values `1, 3` stops on the
second. -/
theorem C4_witness :
    (run_objective_seq true (some 1) [5, 3, 0] = .error .stopIteration ∧
      run_objective_seq true (some 1) ([5, 3, 0].take 2) =
        .ok ([5, 3, 0].take 2) ∧
      adaptive_try_run (run_objective_seq true (some 1) [5, 3, 0]) =
        .ok ()) ∧
    (run_objective_seq false (some 2) [1, 3] = .error .stopIteration ∧
      run_objective_seq false (some 2) ([1, 3].take 1) =
        .ok (([1, 3].take 1).map fun v => -v) ∧
      adaptive_try_run (run_objective_seq false (some 2) [1, 3]) = .ok ()) :=
  ⟨C4_adaptive_termination.1 1 [5, 3, 0] 2 (by decide) (by decide) (by decide),
   C4_adaptive_termination.2 2 [1, 3] 1 (by decide) (by decide) (by decide)⟩

/-!  Counting finish notifications in the control-flow traces. -/

theorem finishSweep_injective : Function.Injective Ev.finishSweep :=
  fun a b hab => by simpa using hab

theorem count_finishSweep_range_map_finish (n i : ℕ) (h : i < n) :
    ((List.range n).map Ev.finishSweep).count (Ev.finishSweep i) = 1 := by
  rw [List.count_map_of_injective _ _ finishSweep_injective]
  exact List.count_eq_one_of_mem (List.nodup_range n) (List.mem_range.mpr h)

theorem count_finishSweep_range_map_prep (n i : ℕ) :
    ((List.range n).map Ev.prepSweep).count (Ev.finishSweep i) = 0 := by
  rw [List.count_eq_zero]
  simp

theorem count_finishSweep_finishEvents (n i : ℕ) (h : i < n) :
    (finishEvents n).count (Ev.finishSweep i) = 1 := by
  rw [finishEvents, List.count_append,
    count_finishSweep_range_map_finish n i h]
  simp

theorem count_finishDet_finishEvents (n : ℕ) :
    (finishEvents n).count Ev.finishDet = 1 := by
  rw [finishEvents, List.count_append]
  have h0 : ((List.range n).map Ev.finishSweep).count Ev.finishDet = 0 := by
    rw [List.count_eq_zero]; simp
  rw [h0]
  simp

theorem count_finishSweep_finishEvents_zero (n i : ℕ) (h : ¬ i < n) :
    (finishEvents n).count (Ev.finishSweep i) = 0 := by
  rw [finishEvents, List.count_append]
  have h1 : ((List.range n).map Ev.finishSweep).count (Ev.finishSweep i)
      = 0 := by
    rw [List.count_map_of_injective _ _ finishSweep_injective,
      List.count_eq_zero]
    simpa using h
  rw [h1]
  simp

/-- C3 counterexample: a hard run with three sweep functions aborts with
the more-than-2-hard-axes error, and contrary to the claim no sweep
function and not the detector receives a finish notification (the raise at
the end of the dispatch is not wrapped in any cleanup handler). -/
theorem C3_counterexample :
    (measure [.hard, .hard, .hard] .hard 5).1 =
      .error .hardNDNotImplemented ∧
    (measure [.hard, .hard, .hard] .hard 5).2.count (Ev.finishSweep 0) = 0 ∧
    (measure [.hard, .hard, .hard] .hard 5).2.count (Ev.finishSweep 1) = 0 ∧
    (measure [.hard, .hard, .hard] .hard 5).2.count (Ev.finishSweep 2) = 0 ∧
    (measure [.hard, .hard, .hard] .hard 5).2.count Ev.finishDet = 0 :=
  ⟨rfl, by decide, by decide, by decide, by decide⟩

/-- C3 amended: finish notifications are sent exactly once to every sweep
function and to the detector on soft static runs that pass the mode check,
on single-axis hard runs, and on adaptive runs that return normally or end
via the termination signal; but no finish notification is sent at all when
the run aborts with the more-than-2-hard-axes error or the
unrecognized-optimizer error, nor on two-axis hard runs, which raise an
AttributeError in the engine's own plot-feed code (the never-assigned
`Plotmon` attribute and the undefined `print_progress_static_2D_hard`, or
the unset `xlen` on the pre-combined route) before the finish loop. -/
theorem C3_finish_calls_amended (controls : List Ctrl) (detCtrl : Ctrl)
    (nPoints nSweep : ℕ) (af : AdaptiveFunctionVal) (o : OptOutcome) :
    (controls ≠ [] → controls.headD .soft = detCtrl →
      (controls.headD .soft = .soft ∨ controls.length = 1) →
      (∀ i, i < controls.length →
        (measure controls detCtrl nPoints).2.count (Ev.finishSweep i)
          = 1) ∧
      (measure controls detCtrl nPoints).2.count Ev.finishDet = 1) ∧
    (2 < controls.length → controls.headD .soft = .hard → detCtrl = .hard →
      (measure controls detCtrl nPoints).1 =
        .error .hardNDNotImplemented ∧
      (∀ i,
        (measure controls detCtrl nPoints).2.count (Ev.finishSweep i)
          = 0) ∧
      (measure controls detCtrl nPoints).2.count Ev.finishDet = 0) ∧
    (controls.length = 2 → controls.headD .soft = .hard → detCtrl = .hard →
      (measure controls detCtrl nPoints).1 = .error .attributeError ∧
      (∀ i,
        (measure controls detCtrl nPoints).2.count (Ev.finishSweep i)
          = 0) ∧
      (measure controls detCtrl nPoints).2.count Ev.finishDet = 0) ∧
    ((af = .powellName o ∨ af = .functionVal o) → o ≠ .otherExc →
      (∀ i, i < nSweep →
        (measure_soft_adaptive nSweep af).2.count (Ev.finishSweep i) = 1) ∧
      (measure_soft_adaptive nSweep af).2.count Ev.finishDet = 1) ∧
    ((af = .callableObj ∨ af = .nonCallable) →
      (measure_soft_adaptive nSweep af).1 = .error .unrecognizedOptimizer ∧
      (∀ i,
        (measure_soft_adaptive nSweep af).2.count (Ev.finishSweep i) = 0) ∧
      (measure_soft_adaptive nSweep af).2.count Ev.finishDet = 0) := by
  refine ⟨?_, ?_, ?_, ?_, ?_⟩
  · intro hne hmatch hvalid
    have htrace : ∃ pre : List Ev,
        (measure controls detCtrl nPoints).2 =
          pre ++ finishEvents controls.length ∧
        (∀ i, pre.count (Ev.finishSweep i) = 0) ∧
        pre.count Ev.finishDet = 0 := by
      cases hctl : controls.headD .soft with
      | soft =>
        refine ⟨(List.range controls.length).map Ev.prepSweep ++ [Ev.prepDet]
          ++ List.replicate nPoints Ev.acquirePoint, ?_, ?_, ?_⟩
        · simp only [measure]
          rw [if_neg (not_not_intro hmatch), if_pos hctl]
        · intro i
          rw [List.count_eq_zero]
          simp [List.mem_replicate]
        · rw [List.count_eq_zero]
          simp [List.mem_replicate]
      | hard =>
        have hlen1 : controls.length = 1 := by
          rcases hvalid with h | h
          · rw [hctl] at h; exact absurd h (by simp)
          · exact h
        refine ⟨(List.range controls.length).map Ev.prepSweep ++
          [Ev.prepDet, Ev.getValuesBlock], ?_, ?_, ?_⟩
        · simp only [measure]
          rw [if_neg (not_not_intro hmatch), if_neg (by rw [hctl]; decide),
            if_pos hlen1]
        · intro i
          rw [List.count_eq_zero]
          simp
        · rw [List.count_eq_zero]
          simp
    obtain ⟨pre, htr, hps, hpd⟩ := htrace
    constructor
    · intro i hi
      rw [htr, List.count_append, hps i,
        count_finishSweep_finishEvents _ _ hi]
    · rw [htr, List.count_append, hpd, count_finishDet_finishEvents]
  · intro hgt2 hctl hdet
    have hred : measure controls detCtrl nPoints =
        (.error .hardNDNotImplemented,
          (List.range controls.length).map Ev.prepSweep) := by
      simp only [measure]
      rw [if_neg (not_not_intro (by rw [hctl, hdet])),
        if_neg (by rw [hctl]; decide), if_neg (by omega), if_neg (by omega)]
    refine ⟨by rw [hred], ?_, ?_⟩
    · intro i
      rw [hred, count_finishSweep_range_map_prep]
    · rw [hred]
      simp only [List.count_eq_zero]
      simp
  · intro hlen2 hctl hdet
    have hred : measure controls detCtrl nPoints =
        (.error .attributeError,
          (List.range controls.length).map Ev.prepSweep ++
            [Ev.prepDet, Ev.getValuesBlock]) := by
      simp only [measure]
      rw [if_neg (not_not_intro (by rw [hctl, hdet])),
        if_neg (by rw [hctl]; decide), if_neg (by omega), if_pos hlen2]
    refine ⟨by rw [hred], ?_, ?_⟩
    · intro i
      rw [hred]
      simp only [List.count_eq_zero]
      simp
    · rw [hred]
      simp only [List.count_eq_zero]
      simp
  · intro haf ho
    have htr : (measure_soft_adaptive nSweep af).2 =
        ((List.range nSweep).map Ev.prepSweep ++ [Ev.prepDet] ++
          [Ev.optimizerCalled]) ++ finishEvents nSweep := by
      rcases haf with h | h <;> subst h <;> cases o <;>
        first
          | rfl
          | exact absurd rfl ho
    constructor
    · intro i hi
      rw [htr, List.count_append, count_finishSweep_finishEvents _ _ hi]
      have : ((List.range nSweep).map Ev.prepSweep ++ [Ev.prepDet] ++
          [Ev.optimizerCalled]).count (Ev.finishSweep i) = 0 := by
        rw [List.count_eq_zero]; simp
      rw [this]
    · rw [htr, List.count_append, count_finishDet_finishEvents]
      have : ((List.range nSweep).map Ev.prepSweep ++ [Ev.prepDet] ++
          [Ev.optimizerCalled]).count Ev.finishDet = 0 := by
        rw [List.count_eq_zero]; simp
      rw [this]
  · intro haf
    have hred : measure_soft_adaptive nSweep af =
        (.error .unrecognizedOptimizer,
          (List.range nSweep).map Ev.prepSweep ++ [Ev.prepDet]) := by
      rcases haf with h | h <;> subst h <;> rfl
    refine ⟨by rw [hred], ?_, ?_⟩
    · intro i
      rw [hred]
      simp only [List.count_eq_zero]
      simp
    · rw [hred]
      simp only [List.count_eq_zero]
      simp

/-- Witness for C3's amended statement at concrete runs: a matched soft
run with two axes, a single-axis hard run, a three-axis hard run, a
two-axis hard run, an adaptive run ended by the termination signal, and an
adaptive run with a non-callable optimizer. -/
theorem C3_witness :
    ((measure [.soft, .soft] .soft 3).2.count (Ev.finishSweep 1) = 1 ∧
      (measure [.soft, .soft] .soft 3).2.count Ev.finishDet = 1) ∧
    ((measure [.hard] .hard 0).2.count (Ev.finishSweep 0) = 1 ∧
      (measure [.hard] .hard 0).2.count Ev.finishDet = 1) ∧
    ((measure [.hard, .hard, .hard] .hard 0).2.count (Ev.finishSweep 1)
        = 0 ∧
      (measure [.hard, .hard, .hard] .hard 0).2.count Ev.finishDet = 0) ∧
    ((measure [.hard, .hard] .hard 0).1 = .error .attributeError ∧
      (measure [.hard, .hard] .hard 0).2.count (Ev.finishSweep 0) = 0 ∧
      (measure [.hard, .hard] .hard 0).2.count Ev.finishDet = 0) ∧
    ((measure_soft_adaptive 1 (.functionVal .stopIter)).2.count
        (Ev.finishSweep 0) = 1 ∧
      (measure_soft_adaptive 1 (.functionVal .stopIter)).2.count Ev.finishDet
        = 1) ∧
    ((measure_soft_adaptive 1 .nonCallable).2.count (Ev.finishSweep 0) = 0 ∧
      (measure_soft_adaptive 1 .nonCallable).2.count Ev.finishDet = 0) := by
  refine ⟨⟨?_, ?_⟩, ⟨?_, ?_⟩, ⟨?_, ?_⟩, ⟨?_, ?_, ?_⟩, ⟨?_, ?_⟩, ⟨?_, ?_⟩⟩
  · exact ((C3_finish_calls_amended [.soft, .soft] .soft 3 0
      .nonCallable .normal).1 (by simp) (by decide) (by decide)).1 1
      (by decide)
  · exact ((C3_finish_calls_amended [.soft, .soft] .soft 3 0
      .nonCallable .normal).1 (by simp) (by decide) (by decide)).2
  · exact ((C3_finish_calls_amended [.hard] .hard 0 0
      .nonCallable .normal).1 (by simp) (by decide) (by decide)).1 0
      (by decide)
  · exact ((C3_finish_calls_amended [.hard] .hard 0 0
      .nonCallable .normal).1 (by simp) (by decide) (by decide)).2
  · exact ((C3_finish_calls_amended [.hard, .hard, .hard] .hard 0 0
      .nonCallable .normal).2.1 (by decide) (by decide) (by decide)).2.1 1
  · exact ((C3_finish_calls_amended [.hard, .hard, .hard] .hard 0 0
      .nonCallable .normal).2.1 (by decide) (by decide) (by decide)).2.2
  · exact ((C3_finish_calls_amended [.hard, .hard] .hard 0 0
      .nonCallable .normal).2.2.1 (by decide) (by decide) (by decide)).1
  · exact ((C3_finish_calls_amended [.hard, .hard] .hard 0 0
      .nonCallable .normal).2.2.1 (by decide) (by decide) (by decide)).2.1 0
  · exact ((C3_finish_calls_amended [.hard, .hard] .hard 0 0
      .nonCallable .normal).2.2.1 (by decide) (by decide) (by decide)).2.2
  · exact ((C3_finish_calls_amended [] .soft 0 1
      (.functionVal .stopIter) .stopIter).2.2.2.1 (Or.inr rfl)
      (by decide)).1 0 (by decide)
  · exact ((C3_finish_calls_amended [] .soft 0 1
      (.functionVal .stopIter) .stopIter).2.2.2.1 (Or.inr rfl)
      (by decide)).2
  · exact ((C3_finish_calls_amended [] .soft 0 1
      .nonCallable .normal).2.2.2.2 (Or.inr rfl)).2.1 0
  · exact ((C3_finish_calls_amended [] .soft 0 1
      .nonCallable .normal).2.2.2.2 (Or.inr rfl)).2.2

/-- C8 counterexample: a callable optimizer value that is not a plain
Python function (so `type(adaptive_function) == types.FunctionType` is
False) is not invoked — the run fails with the unrecognized-optimizer
error, contrary to the claim that any callable value is invoked. -/
theorem C8_counterexample :
    (measure_soft_adaptive 1 .callableObj).1 =
      .error .unrecognizedOptimizer ∧
    (measure_soft_adaptive 1 .callableObj).2.count Ev.optimizerCalled = 0 :=
  ⟨rfl, by decide⟩

/-- C8 amended: the optimizer value `'Powell'` resolves to the builtin
Powell's-method minimizer (`scipy.optimize.fmin_powell`, itself a plain
function) and runs; any other supplied value whose type is a plain Python
function is invoked as the optimizer; any value that is not a plain Python
function — including callables of other types — fails with the
unrecognized-optimizer error before any finish notification and without
the optimizer being invoked. -/
theorem C8_optimizer_resolution_amended (nSweep : ℕ) (o : OptOutcome)
    (af : AdaptiveFunctionVal) :
    (measure_soft_adaptive nSweep (.powellName o)).2.count Ev.optimizerCalled
      = 1 ∧
    (measure_soft_adaptive nSweep (.powellName o)) =
      (measure_soft_adaptive nSweep (.functionVal o)) ∧
    (measure_soft_adaptive nSweep (.functionVal o)).2.count
      Ev.optimizerCalled = 1 ∧
    (o ≠ .otherExc → (measure_soft_adaptive nSweep (.powellName o)).1 =
      .ok ()) ∧
    ((af = .callableObj ∨ af = .nonCallable) →
      (measure_soft_adaptive nSweep af).1 = .error .unrecognizedOptimizer ∧
      (measure_soft_adaptive nSweep af).2.count Ev.optimizerCalled = 0 ∧
      (∀ i,
        (measure_soft_adaptive nSweep af).2.count (Ev.finishSweep i) = 0) ∧
      (measure_soft_adaptive nSweep af).2.count Ev.finishDet = 0) := by
  have hcount : ∀ o' : OptOutcome,
      (measure_soft_adaptive nSweep (.functionVal o')).2.count
        Ev.optimizerCalled = 1 := by
    intro o'
    have hz : ((List.range nSweep).map Ev.prepSweep ++
        [Ev.prepDet]).count Ev.optimizerCalled = 0 := by
      rw [List.count_eq_zero]; simp
    have hz2 : (finishEvents nSweep).count Ev.optimizerCalled = 0 := by
      rw [finishEvents, List.count_eq_zero]; simp
    cases o' <;>
      simp [measure_soft_adaptive, List.count_append, hz, hz2,
        List.count_eq_zero]
  refine ⟨?_, rfl, hcount o, ?_, ?_⟩
  · exact hcount o
  · intro ho
    cases o with
    | normal => rfl
    | stopIter => rfl
    | otherExc => exact absurd rfl ho
  · intro haf
    have hred : measure_soft_adaptive nSweep af =
        (.error .unrecognizedOptimizer,
          (List.range nSweep).map Ev.prepSweep ++ [Ev.prepDet]) := by
      rcases haf with h | h <;> subst h <;> rfl
    refine ⟨by rw [hred], ?_, ?_, ?_⟩
    · rw [hred]
      simp only [List.count_eq_zero]
      simp
    · intro i
      rw [hred]
      simp only [List.count_eq_zero]
      simp
    · rw [hred]
      simp only [List.count_eq_zero]
      simp

/-- Witness for C8's amended statement at `nSweep = 1`, a normal outcome
and the callable-but-not-a-function optimizer value. -/
theorem C8_witness :
    (measure_soft_adaptive 1 (.powellName .normal)).2.count
      Ev.optimizerCalled = 1 ∧
    (measure_soft_adaptive 1 (.powellName .normal)).1 = .ok () ∧
    (measure_soft_adaptive 1 .callableObj).2.count Ev.optimizerCalled = 0 ∧
    (measure_soft_adaptive 1 .callableObj).2.count (Ev.finishSweep 0) = 0 :=
  ⟨(C8_optimizer_resolution_amended 1 .normal .callableObj).1,
   (C8_optimizer_resolution_amended 1 .normal .callableObj).2.2.2.1
     (by decide),
   ((C8_optimizer_resolution_amended 1 .normal .callableObj).2.2.2.2
     (Or.inl rfl)).2.1,
   ((C8_optimizer_resolution_amended 1 .normal .callableObj).2.2.2.2
     (Or.inl rfl)).2.2.1 0⟩

/-!  The soft static run in closed form. -/

theorem measure_soft_static_closed (S : ℕ) (det : List ℚ → List ℚ) :
    ∀ (points : List (List ℚ)) (C : ℕ) (rows : List (List ℚ)),
      (∀ p ∈ points, p.length = S) →
      measure_soft_static S det points ⟨C, rows⟩ =
        .ok ⟨C, rows ++ points.map fun p => p ++ det p⟩ := by
  intro points
  induction points with
  | nil =>
    intro C rows _
    show (Except.ok (⟨C, rows⟩ : DataSet) : Except PyExc DataSet) = _
    simp
  | cons p ps ih =>
    intro C rows h
    have hp : p.length = S := h p (by simp)
    have hm : measurement_function S det ⟨C, rows⟩ p =
        .ok ⟨C, rows ++ [p ++ det p]⟩ := by
      simp [measurement_function, hp]
    have hrest := ih C (rows ++ [p ++ det p]) fun q hq => h q (by simp [hq])
    show (p :: ps).foldlM (fun acc q => measurement_function S det acc q)
        (⟨C, rows⟩ : DataSet) = _
    rw [List.foldlM_cons, hm]
    show measure_soft_static S det ps ⟨C, rows ++ [p ++ det p]⟩ = _
    rw [hrest]
    simp

/-- C1: a completed 1D soft run.  The dataset is created with `S + V`
columns and zero rows; every `measurement_function` call on an in-range
point appends exactly one row, the sweep point followed by the detector's
values; and the run over `N` sweep points ends with exactly `N` rows, each
of length `S + V`. -/
theorem C1_soft_run_table_shape (S V : ℕ) (det : List ℚ → List ℚ)
    (points : List (List ℚ))
    (hS : ∀ p ∈ points, p.length = S)
    (hV : ∀ p ∈ points, (det p).length = V) :
    (create_experimentaldata_dataset S V).numCols = S + V ∧
    (create_experimentaldata_dataset S V).rows.length = 0 ∧
    (∀ (d : DataSet) (x : List ℚ), x.length = S →
      measurement_function S det d x = .ok ⟨d.numCols, d.rows ++ [x ++ det x]⟩) ∧
    measure_soft_static S det points (create_experimentaldata_dataset S V) =
      .ok ⟨S + V, points.map fun p => p ++ det p⟩ ∧
    (points.map fun p => p ++ det p).length = points.length ∧
    (∀ row ∈ points.map fun p => p ++ det p, row.length = S + V) := by
  refine ⟨rfl, rfl, ?_, ?_, List.length_map points _, ?_⟩
  · intro d x hx
    simp [measurement_function, hx]
  · have := measure_soft_static_closed S det points (S + V) [] hS
    simpa [create_experimentaldata_dataset] using this
  · intro row hrow
    obtain ⟨p, hp, hpr⟩ := List.mem_map.mp hrow
    rw [← hpr, List.length_append, hS p hp, hV p hp]

/-- Witness for C1 at the spec's Scenario A: points `[0], [1], [2]` and a
one-channel detector returning `x * 2`. -/
theorem C1_witness :
    measure_soft_static 1 (fun x => [2 * x.getD 0 0]) [[0], [1], [2]]
      (create_experimentaldata_dataset 1 1) =
    .ok ⟨1 + 1, [[0], [1], [2]].map fun p => p ++ [2 * p.getD 0 0]⟩ :=
  (C1_soft_run_table_shape 1 1 (fun x => [2 * x.getD 0 0]) [[0], [1], [2]]
    (by decide) (by decide)).2.2.2.1

/-!  Hard-sweep block ingestion: arithmetic and closed forms. -/

theorem rat_floor_natCast_toNat (c : ℕ) :
    (Rat.floor ((c : ℚ))).toNat = c := by
  have h : Rat.floor ((c : ℚ)) = ⌊(c : ℚ)⌋ := rfl
  rw [h, Int.floor_natCast]
  exact Int.toNat_natCast c

theorem chunkNumber_mul (r j : ℕ) (hr : 0 < r) :
    chunkNumber (r * j) r = (j : ℚ) + 1 := by
  unfold chunkNumber
  have hrq : (r : ℚ) ≠ 0 := by exact_mod_cast hr.ne'
  push_cast
  rw [mul_comm (r : ℚ) (j : ℚ), mul_div_assoc, div_self hrq, mul_one]

theorem measure_hard_ingest_closed (S cols : ℕ) (d b : List (List ℚ))
    (hr : 0 < b.length) (hdvd : b.length ∣ d.length) :
    measure_hard_ingest S cols d b =
      d ++ b.map fun row => (List.replicate cols 0).take S ++ row := by
  obtain ⟨j, hj⟩ := hdvd
  have hchunk : chunkNumber d.length b.length = (j : ℚ) + 1 := by
    rw [hj]; exact chunkNumber_mul b.length j hr
  have hstart :
      (Rat.floor ((b.length : ℚ) *
        (chunkNumber d.length b.length - 1))).toNat = d.length := by
    rw [hchunk]
    have h1 : (b.length : ℚ) * ((j : ℚ) + 1 - 1) =
        ((b.length * j : ℕ) : ℚ) := by push_cast; ring
    rw [h1, rat_floor_natCast_toNat, ← hj]
  have hnew :
      (Rat.floor ((b.length : ℚ) *
        chunkNumber d.length b.length)).toNat = d.length + b.length := by
    rw [hchunk]
    have h1 : (b.length : ℚ) * ((j : ℚ) + 1) =
        ((b.length * j + b.length : ℕ) : ℚ) := by push_cast; ring
    rw [h1, rat_floor_natCast_toNat, ← hj]
  simp only [measure_hard_ingest]
  rw [hstart, hnew, List.take_of_length_le (by omega)]
  have hsub : d.length + b.length - d.length = b.length := by omega
  rw [hsub]
  apply List.ext_getElem?
  intro k
  rw [getElem?_sliceAssignValues, List.getElem?_append, List.getElem?_append]
  simp only [Nat.zero_add]
  by_cases hk : k < d.length
  · rw [if_pos hk, if_pos hk, List.getElem?_eq_getElem hk]
    simp only [Option.map_some']
    rw [if_neg (by omega)]
  · rw [if_neg hk, if_neg hk]
    by_cases hk2 : k < d.length + b.length
    · have hrep : (List.replicate b.length
          (List.replicate cols (0 : ℚ)))[k - d.length]? =
          some (List.replicate cols 0) := by
        rw [List.getElem?_replicate, if_pos (by omega)]
      have hb2 : k - d.length < b.length := by omega
      rw [hrep]
      simp only [Option.map_some']
      rw [if_pos (by omega), List.getElem?_map,
        List.getElem?_eq_getElem hb2]
      simp only [Option.map_some']
      rw [List.getD_eq_getElem b [] hb2]
    · have h1 : (List.replicate b.length
          (List.replicate cols (0 : ℚ)))[k - d.length]? = none := by
        rw [List.getElem?_replicate, if_neg (by omega)]
      have h2 : (b.map fun row =>
          (List.replicate cols (0 : ℚ)).take S ++ row)[k - d.length]?
          = none := by
        apply List.getElem?_eq_none
        rw [List.length_map]
        omega
      rw [h1, h2]
      rfl

theorem measure_hard_fold_closed (S cols r : ℕ) (hr : 0 < r) :
    ∀ (blocks : List (List (List ℚ))) (init : List (List ℚ)),
      (∀ b ∈ blocks, b.length = r) → r ∣ init.length →
      blocks.foldl (fun d b => measure_hard_ingest S cols d b) init =
        init ++ blocks.flatMap
          fun b => b.map fun row => (List.replicate cols 0).take S ++ row := by
  intro blocks
  induction blocks with
  | nil => intro init _ _; simp
  | cons b bs ih =>
    intro init hb hdvd
    have hbr : b.length = r := hb b (by simp)
    have hstep := measure_hard_ingest_closed S cols init b (by omega)
      (by rw [hbr]; exact hdvd)
    have hdvd2 : r ∣ (init ++ b.map fun row =>
        (List.replicate cols (0 : ℚ)).take S ++ row).length := by
      rw [List.length_append, List.length_map, hbr]
      exact Nat.dvd_add hdvd dvd_rfl
    simp only [List.foldl_cons, List.flatMap_cons]
    rw [hstep, ih _ (fun q hq => hb q (by simp [hq])) hdvd2,
      List.append_assoc]

theorem length_flatMap_blocks (r : ℕ) (f : List ℚ → List ℚ) :
    ∀ blocks : List (List (List ℚ)), (∀ b ∈ blocks, b.length = r) →
      (blocks.flatMap fun b => b.map f).length = blocks.length * r := by
  intro blocks
  induction blocks with
  | nil => simp
  | cons b bs ih =>
    intro h
    simp only [List.flatMap_cons, List.length_append, List.length_map,
      List.length_cons]
    rw [ih fun q hq => h q (by simp [hq]), h b (by simp)]
    ring

theorem getElem?_flatMap_blocks (r : ℕ) (f : List ℚ → List ℚ) :
    ∀ blocks : List (List (List ℚ)), (∀ b ∈ blocks, b.length = r) →
      ∀ (i : ℕ) (b : List (List ℚ)), blocks[i]? = some b →
      ∀ (j : ℕ), j < r →
        (blocks.flatMap fun b => b.map f)[i * r + j]? = (b[j]?).map f := by
  intro blocks
  induction blocks with
  | nil => intro _ i b hib; simp at hib
  | cons b0 bs ih =>
    intro h i b hib j hj
    have hlen : (b0.map f).length = r := by
      rw [List.length_map]; exact h b0 (by simp)
    cases i with
    | zero =>
      have hb : b0 = b := by simpa using hib
      subst hb
      simp only [List.flatMap_cons, Nat.zero_mul, Nat.zero_add]
      rw [List.getElem?_append, if_pos (by omega), List.getElem?_map]
    | succ i =>
      have hib' : bs[i]? = some b := by simpa using hib
      have harith : (i + 1) * r + j = (b0.map f).length + (i * r + j) := by
        rw [hlen]; ring
      simp only [List.flatMap_cons, harith]
      rw [List.getElem?_append_right (by omega)]
      have hsub : (b0.map f).length + (i * r + j) - (b0.map f).length =
          i * r + j := by omega
      rw [hsub]
      exact ih (fun q hq => h q (by simp [hq])) i b hib' j hj

/-- C2: ordered ingestion of `k` hard-detector blocks of `r` rows each into
an initially empty table.  Per step, at any table whose row count is a
multiple of `r`: the chunk number equals `current_row_count / r + 1`, the
resized table holds `r * chunk_number` rows, and the step equals the old
table extended by the block's rows (old rows preserved), each new row being
the fill-valued sweep columns followed by the block row.  After all `k`
blocks the table has exactly `k*r` rows and block `i`'s values occupy the
value columns of rows `[i*r, (i+1)*r)` (0-indexed), with no gaps and no
overlaps. -/
theorem C2_hard_block_growth (S v r : ℕ) (hr : 0 < r)
    (blocks : List (List (List ℚ))) (hb : ∀ b ∈ blocks, b.length = r) :
    (∀ d b : List (List ℚ), b.length = r → r ∣ d.length →
      chunkNumber d.length r = ((d.length / r : ℕ) : ℚ) + 1 ∧
      ((measure_hard_ingest S (S + v) d b).length : ℚ) =
        (r : ℚ) * chunkNumber d.length r ∧
      measure_hard_ingest S (S + v) d b =
        d ++ b.map fun row => (List.replicate (S + v) 0).take S ++ row) ∧
    (blocks.foldl (fun d b => measure_hard_ingest S (S + v) d b) []).length
      = blocks.length * r ∧
    (∀ (i : ℕ) (b : List (List ℚ)), blocks[i]? = some b →
      ∀ (j : ℕ) (row : List ℚ), b[j]? = some row →
      (blocks.foldl (fun d b => measure_hard_ingest S (S + v) d b)
          [])[i * r + j]? =
        some ((List.replicate (S + v) 0).take S ++ row) ∧
      ((List.replicate (S + v) 0).take S ++ row).drop S = row) := by
  have hfold := measure_hard_fold_closed S (S + v) r hr blocks []
    hb (by simp)
  have hdropS : ∀ row : List ℚ,
      ((List.replicate (S + v) (0 : ℚ)).take S ++ row).drop S = row := by
    intro row
    have hlen : ((List.replicate (S + v) (0 : ℚ)).take S).length = S := by
      rw [List.length_take, List.length_replicate]
      omega
    have h := List.drop_left ((List.replicate (S + v) (0 : ℚ)).take S) row
    rwa [hlen] at h
  refine ⟨?_, ?_, ?_⟩
  · intro d b hbr hdvd
    obtain ⟨j, hj⟩ := hdvd
    have hclosed := measure_hard_ingest_closed S (S + v) d b (by omega)
      (by rw [hbr]; exact ⟨j, hj⟩)
    refine ⟨?_, ?_, hclosed⟩
    · rw [hj, chunkNumber_mul r j hr, Nat.mul_div_cancel_left j hr]
    · rw [hclosed, List.length_append, List.length_map, hbr, hj,
        chunkNumber_mul r j hr]
      push_cast
      ring
  · rw [hfold]
    simpa using length_flatMap_blocks r _ blocks hb
  · intro i b hib j row hjrow
    have hmem : b ∈ blocks := List.getElem?_mem hib
    have hbr : b.length = r := hb b hmem
    have hj : j < r := by
      by_contra hc
      rw [List.getElem?_eq_none (by omega)] at hjrow
      exact Option.noConfusion hjrow
    have hidx := getElem?_flatMap_blocks r
      (fun row => (List.replicate (S + v) 0).take S ++ row) blocks hb i b
      hib j hj
    refine ⟨?_, hdropS row⟩
    rw [hfold]
    simp only [List.nil_append]
    rw [hidx, hjrow]
    rfl

/-- Witness for C2 at the spec's Scenario C: three blocks of two
single-channel rows each (`S = 1`, `v = 1`, `r = 2`). -/
theorem C2_witness :
    chunkNumber (List.length ([] : List (List ℚ))) 2 =
      ((List.length ([] : List (List ℚ)) / 2 : ℕ) : ℚ) + 1 ∧
    ([[[1], [2]], [[3], [4]], [[5], [6]]].foldl
      (fun d b => measure_hard_ingest 1 (1 + 1) d b) []).length = 3 * 2 ∧
    ([[[1], [2]], [[3], [4]], [[5], [6]]].foldl
        (fun d b => measure_hard_ingest 1 (1 + 1) d b) [])[1 * 2 + 0]? =
      some ((List.replicate (1 + 1) 0).take 1 ++ [3]) := by
  refine ⟨?_, ?_, ?_⟩
  · exact ((C2_hard_block_growth 1 1 2 (by decide)
      [[[1], [2]], [[3], [4]], [[5], [6]]] (by decide)).1 [] [[1], [2]]
      (by decide) (by decide)).1
  · exact (C2_hard_block_growth 1 1 2 (by decide)
      [[[1], [2]], [[3], [4]], [[5], [6]]] (by decide)).2.1
  · exact ((C2_hard_block_growth 1 1 2 (by decide)
      [[[1], [2]], [[3], [4]], [[5], [6]]] (by decide)).2.2 1 [[3], [4]]
      (by decide) 0 [3] (by decide)).1

/-- C6 counterexample: a single-axis (1D-mode) hard run over four sweep
points whose detector returns a first chunk of two rows.  The claim says
the sweep-point column is windowed per chunk (rows `[0, 2)` of the point
set written alongside chunk 1, giving `[[0,10],[1,20]]`), but the windowed
write is guarded by `self.mode is '2D'` and does not fire in a 1D run: the
sweep column keeps the fill value 0. -/
theorem C6_counterexample :
    measure_hard_step_1D 2 [0, 1, 2, 3] [] [[10], [20]] =
      [[0, 10], [0, 20]] ∧
    measure_hard_step_1D 2 [0, 1, 2, 3] [] [[10], [20]] ≠
      [[0, 10], [1, 20]] := by
  have hclosed := measure_hard_ingest_closed 1 2 [] [[10], [20]]
    (by decide) (by decide)
  have hne : ¬ ([0, 1, 2, 3] : List ℚ).length =
      ([[10], [20]] : List (List ℚ)).length := by decide
  have hstep : measure_hard_step_1D 2 [0, 1, 2, 3] [] [[10], [20]] =
      measure_hard_ingest 1 2 [] [[10], [20]] := by
    simp only [measure_hard_step_1D]
    rw [if_neg hne]
  constructor
  · rw [hstep, hclosed]
    decide
  · rw [hstep, hclosed]
    decide

/-- C6 amended: in a single-axis (1D) hard run, after an ingested chunk the
sweep-point column is populated with the full sweep point set exactly when
the point set's length equals the chunk's row count; otherwise (data
accumulating across chunks whose size differs from the point-set length)
the sweep-point column is left untouched at the fill value — the per-chunk
windowed write applies only to 2D-mode runs. -/
theorem C6_sweep_column_amended (cols : ℕ) (hc : 1 ≤ cols) (pts : List ℚ)
    (nd : List (List ℚ)) :
    (pts.length = nd.length →
      ∀ (j : ℕ) (row : List ℚ), nd[j]? = some row →
        (measure_hard_step_1D cols pts [] nd)[j]? =
          some (pts.getD j 0 :: row)) ∧
    (∀ dset : List (List ℚ), pts.length ≠ nd.length →
      measure_hard_step_1D cols pts dset nd =
        measure_hard_ingest 1 cols dset nd) ∧
    (pts.length ≠ nd.length →
      ∀ (j : ℕ) (row : List ℚ), nd[j]? = some row →
        (measure_hard_step_1D cols pts [] nd)[j]? =
          some ((0 : ℚ) :: row)) := by
  have htake : (List.replicate cols (0 : ℚ)).take 1 = [0] := by
    rw [List.take_replicate]
    have hmin : min 1 cols = 1 := by omega
    rw [hmin]
    rfl
  have hlt : ∀ (j : ℕ) (row : List ℚ), nd[j]? = some row →
      j < nd.length := by
    intro j row hj
    by_contra hcj
    rw [List.getElem?_eq_none (by omega)] at hj
    exact Option.noConfusion hj
  have hclosed : 0 < nd.length → measure_hard_ingest 1 cols [] nd =
      nd.map fun row => (0 : ℚ) :: row := by
    intro hl
    rw [measure_hard_ingest_closed 1 cols [] nd hl (by simp)]
    simp [htake]
  refine ⟨?_, ?_, ?_⟩
  · intro hm j row hjrow
    have hj := hlt j row hjrow
    have hstep : measure_hard_step_1D cols pts [] nd =
        sliceAssignCol0 pts 0 (measure_hard_ingest 1 cols [] nd) := by
      simp only [measure_hard_step_1D]
      rw [if_pos hm]
    rw [hstep, getElem?_sliceAssignCol0, hclosed (by omega),
      List.getElem?_map, hjrow]
    simp
  · intro dset hne
    simp only [measure_hard_step_1D]
    rw [if_neg hne]
  · intro hne j row hjrow
    have hj := hlt j row hjrow
    have hstep : measure_hard_step_1D cols pts [] nd =
        measure_hard_ingest 1 cols [] nd := by
      simp only [measure_hard_step_1D]
      rw [if_neg hne]
    rw [hstep, hclosed (by omega), List.getElem?_map, hjrow]
    rfl

/-- Witness for C6's amended statement: a matching chunk (`pts = [0,1]`,
two rows) writes the sweep points into column 0; a mismatched chunk
(`pts = [0,1,2,3]`, two rows) leaves the fill value there. -/
theorem C6_witness :
    (measure_hard_step_1D 2 [0, 1] [] [[10], [20]])[1]? =
      some (([0, 1] : List ℚ).getD 1 0 :: [20]) ∧
    measure_hard_step_1D 2 [0, 1, 2, 3] [] [[10], [20]] =
      measure_hard_ingest 1 2 [] [[10], [20]] ∧
    (measure_hard_step_1D 2 [0, 1, 2, 3] [] [[10], [20]])[1]? =
      some ((0 : ℚ) :: [20]) :=
  ⟨(C6_sweep_column_amended 2 (by decide) [0, 1] [[10], [20]]).1
      (by decide) 1 [20] (by decide),
   (C6_sweep_column_amended 2 (by decide) [0, 1, 2, 3] [[10], [20]]).2.1
      [] (by decide),
   (C6_sweep_column_amended 2 (by decide) [0, 1, 2, 3] [[10], [20]]).2.2
      (by decide) 1 [20] (by decide)⟩

/-- Witness for C9 at the measured value 5. -/
theorem C9_witness :
    optimization_step false none 5 = .error .typeError ∧
    optimization_step false none 5 ≠ .ok (-5) :=
  C9_maximize_without_threshold_type_error 5

end MeasurementControl
